import Mathlib

/-!
Shallow embedding of the continuum-plasma subsystem of the `tardis` repository
(`tardis/plasma/properties/continuum_processes.py`,
`tardis/plasma/properties/atomic.py`, `tardis/plasma/properties/continuum.py`).
Tables are embedded as finite index lists together with entry functions over ℚ;
numpy/pandas operations are translated operation by operation.
-/

namespace Tardis

/-- A level MultiIndex entry `(atomic_number, ion_number, level_number)`. -/
structure LevelKey where
  atomic_number : ℕ
  ion_number : ℕ
  level_number : ℕ
deriving DecidableEq, Repr

/-- An ion MultiIndex entry `(atomic_number, ion_number)`. -/
abbrev IonKey := ℕ × ℕ

/-- `get_ion_multi_index` (continuum_processes.py:52-73): takes the level values
`atomic_number` and `ion_number` of a level MultiIndex and increments
`ion_number` when `next_higher` is true. -/
def get_ion_multi_index (k : LevelKey) (next_higher : Bool := true) : IonKey :=
  (k.atomic_number, if next_higher then k.ion_number + 1 else k.ion_number)

/-- The same vectorized code of `get_ion_multi_index` applied to a two-level
(ion) MultiIndex: `get_level_values(0)` and `get_level_values(1)` are the two
components of the ion key. -/
def get_ion_multi_index_on_ion (k : IonKey) (next_higher : Bool := true) : IonKey :=
  (k.1, if next_higher then k.2 + 1 else k.2)

/-- `get_ground_state_multi_index` (continuum_processes.py:76-94): maps a level
key to `(atomic_number, ion_number + 1, 0)` (`np.zeros_like` for the level
column). -/
def get_ground_state_multi_index (k : LevelKey) : LevelKey :=
  ⟨k.atomic_number, k.ion_number + 1, 0⟩

/-! ### Block integrator (continuum_processes.py:26-49) -/

/-- `np.trapz(y, x)`: trapezoidal quadrature of samples `y` at locations `x`,
accumulated pairwise; fewer than two samples integrate to `0`. -/
def npTrapz : List ℚ → List ℚ → ℚ
  | y0 :: y1 :: ys, x0 :: x1 :: xs => (x1 - x0) * (y0 + y1) / 2 + npTrapz (y1 :: ys) (x1 :: xs)
  | _, _ => 0

/-- The slice `g[start : start + n]` of a one-dimensional array `g`. -/
def sliceLen (g : ℕ → ℚ) (start n : ℕ) : List ℚ :=
  (List.range n).map (fun j => g (start + j))

/-- The slice `g[start : stop]`. -/
def arraySlice (g : ℕ → ℚ) (start stop : ℕ) : List ℚ :=
  sliceLen g start (stop - start)

/-- `integrate_array_by_blocks` (continuum_processes.py:26-49): entry `(j, i)`
of the output is `np.trapz(f[start:stop, i], x[start:stop])` with
`start = block_references[j]`, `stop = block_references[j + 1]`. -/
def integrate_array_by_blocks (f : ℕ → ℕ → ℚ) (x : ℕ → ℚ)
    (block_references : List ℕ) (j i : ℕ) : ℚ :=
  npTrapz (arraySlice (fun r => f r i) (block_references.getD j 0)
            (block_references.getD (j + 1) 0))
          (arraySlice x (block_references.getD j 0) (block_references.getD (j + 1) 0))

/-- Spec-side definition (§4.2 of the specification): the trapezoidal-quadrature
definite integral of the column `y` against `x` restricted to rows
`[start, stop)`. -/
def trapezoidIntegral (y x : ℕ → ℚ) (start stop : ℕ) : ℚ :=
  ∑ j ∈ Finset.range (stop - start - 1),
    (x (start + j + 1) - x (start + j)) * (y (start + j) + y (start + j + 1)) / 2

lemma sliceLen_zero (g : ℕ → ℚ) (start : ℕ) : sliceLen g start 0 = [] := rfl

lemma sliceLen_succ (g : ℕ → ℚ) (start n : ℕ) :
    sliceLen g start (n + 1) = g start :: sliceLen g (start + 1) n := by
  unfold sliceLen
  rw [List.range_succ_eq_map]
  simp only [List.map_cons, List.map_map, Nat.add_zero]
  congr 1
  ext j
  simp [Function.comp, Nat.add_comm, Nat.add_assoc, Nat.add_left_comm]

lemma npTrapz_sliceLen (y x : ℕ → ℚ) :
    ∀ (n start : ℕ), npTrapz (sliceLen y start n) (sliceLen x start n) =
      ∑ j ∈ Finset.range (n - 1),
        (x (start + j + 1) - x (start + j)) * (y (start + j) + y (start + j + 1)) / 2 := by
  intro n
  induction n with
  | zero => intro start; simp [sliceLen_zero, npTrapz]
  | succ n ih =>
    intro start
    cases n with
    | zero => simp [sliceLen_succ, sliceLen_zero, npTrapz]
    | succ m =>
      rw [sliceLen_succ y start, sliceLen_succ y (start + 1), sliceLen_succ x start,
        sliceLen_succ x (start + 1)]
      rw [npTrapz]
      rw [← sliceLen_succ y (start + 1) m, ← sliceLen_succ x (start + 1) m]
      rw [ih (start + 1)]
      have hsum : ∑ j ∈ Finset.range (m + 2 - 1),
          (x (start + j + 1) - x (start + j)) * (y (start + j) + y (start + j + 1)) / 2 =
          (x (start + 1) - x start) * (y start + y (start + 1)) / 2 +
          ∑ j ∈ Finset.range m,
            (x (start + 1 + j + 1) - x (start + 1 + j)) *
              (y (start + 1 + j) + y (start + 1 + j + 1)) / 2 := by
        have h2 : m + 2 - 1 = m + 1 := rfl
        rw [h2, Finset.sum_range_succ']
        rw [add_comm]
        congr 1
        refine Finset.sum_congr rfl (fun j _ => ?_)
        have e1 : start + (j + 1) = start + 1 + j := by omega
        rw [e1]
      rw [hsum]
      have hm : m + 1 - 1 = m := rfl
      rw [hm]

lemma integrate_array_by_blocks_eq (f : ℕ → ℕ → ℚ) (x : ℕ → ℚ)
    (br : List ℕ) (j i : ℕ) :
    integrate_array_by_blocks f x br j i =
      trapezoidIntegral (fun r => f r i) x (br.getD j 0) (br.getD (j + 1) 0) := by
  unfold integrate_array_by_blocks trapezoidIntegral arraySlice
  set start := br.getD j 0
  set stop := br.getD (j + 1) 0
  rw [npTrapz_sliceLen]

/-! ### CorrPhotoIonRateCoeff (continuum_processes.py:295-317) -/

/-- The exception raised by plasma properties (`tardis.plasma.exceptions`). -/
structure PlasmaException where
  message : String
deriving DecidableEq, Repr

/-- The table `gamma - alpha_stim * n_k * electron_densities / n_i` computed in
`CorrPhotoIonRateCoeff.calculate`, with `n_k` the ion number density at
`get_ion_multi_index(alpha_stim.index)` (next-higher ion) and `n_i` the level
number density at the level itself. -/
def corrPhotoIonGammaCorr (gamma alpha_stim : LevelKey → ℕ → ℚ)
    (electron_densities : ℕ → ℚ) (ion_number_density : IonKey → ℕ → ℚ)
    (level_number_density : LevelKey → ℕ → ℚ) (k : LevelKey) (s : ℕ) : ℚ :=
  gamma k s - alpha_stim k s * ion_number_density (get_ion_multi_index k) s *
    electron_densities s / level_number_density k s

/-- `CorrPhotoIonRateCoeff.calculate` (continuum_processes.py:306-317): forms
`gamma_corr`, counts its negative entries over the table (index rows ×
shell columns), raises `PlasmaException` when the count is nonzero, and
otherwise returns `gamma_corr` unchanged. -/
def CorrPhotoIonRateCoeff_calculate (index : List LevelKey) (shells : ℕ)
    (gamma alpha_stim : LevelKey → ℕ → ℚ) (electron_densities : ℕ → ℚ)
    (ion_number_density : IonKey → ℕ → ℚ)
    (level_number_density : LevelKey → ℕ → ℚ) :
    Except PlasmaException (LevelKey → ℕ → ℚ) :=
  let gamma_corr := corrPhotoIonGammaCorr gamma alpha_stim electron_densities
    ion_number_density level_number_density
  let num_neg_elements := (index.map (fun k =>
    ((List.range shells).filter (fun s => gamma_corr k s < 0)).length)).sum
  if num_neg_elements ≠ 0 then
    Except.error ⟨"Negative values in CorrPhotoIonRateCoeff."⟩
  else
    Except.ok gamma_corr

/-! ### IndexSetterMixin.set_index (continuum_processes.py:97-113) -/

/-- A row key of an assembled transition-probability table:
`(source_level_idx, destination_level_idx, transition_type)`. -/
structure TransKey where
  source_level_idx : ℕ
  destination_level_idx : ℕ
  transition_type : ℤ
deriving DecidableEq, Repr

/-- `IndexSetterMixin.set_index` (continuum_processes.py:98-113): looks each row
key up in `photo_ion_idx`, builds the MultiIndex from
`[source_level_idx, destination_level_idx]` (reversed when `reverse` is true,
with the level names afterwards swapped back so that the level *named*
`source_level_idx` holds the lookup's `destination_level_idx` values), appends
the constant `transition_type` level, and replaces the table's index without
touching the values. -/
def IndexSetterMixin_set_index (p : List (LevelKey × List ℚ))
    (photo_ion_idx : LevelKey → ℕ × ℕ) (transition_type : ℤ := 0)
    (reverse : Bool := true) : List (TransKey × List ℚ) :=
  p.map (fun e =>
    let idx := photo_ion_idx e.1
    let idx_arrays := if reverse then (idx.2, idx.1) else idx
    (⟨idx_arrays.1, idx_arrays.2, transition_type⟩, e.2))

/-! ### YgData merge (atomic.py:290-316) -/

/-- A collision-strength table: a key is `(atomic_number, ion_number,
level_number_lower, level_number_upper)` together with a temperature column;
a cell is `none` where the table has no (or a NaN) value. -/
abbrev YgTable := (ℕ × ℕ × ℕ × ℕ) → ℚ → Option ℚ

/-- `DataFrame.combine_first` as used in `YgData.calculate` (atomic.py:299):
cell-wise, the first table's value where present, otherwise the second's. -/
def combine_first (a b : YgTable) : YgTable :=
  fun k t => (a k t).orElse (fun _ => b k t)

/-- The empty analytic table (no tabulated cell anywhere). -/
def emptyYgTable : YgTable := fun _ _ => none

/-! ### Property-node staleness (spec §3, §4.6) -/

/-- Modelled from the spec: the property-graph evaluation engine
(`tardis.plasma.properties.base`, the caching/update machinery behind
`ProcessingPlasmaProperty`) is not under src/. Per the spec, "a node is
recomputed only when any declared input's value has changed since last
computation (dependency staleness)". A node's evaluation state holds the
declared inputs' values seen at the last computation, the cached output, and a
call-count probe for the compute function. -/
structure NodeState where
  last_inputs : Option (List ℚ)
  cached_output : ℚ
  call_count : ℕ
deriving DecidableEq, Repr

/-- Modelled from the spec: evaluating a node on the current values of its
declared inputs. If the inputs are unchanged since the last evaluation the
cached value is returned and the compute function is not invoked; otherwise
the compute function is invoked and its result cached. -/
def evaluateNode (compute : List ℚ → ℚ) (inputs : List ℚ) (st : NodeState) :
    ℚ × NodeState :=
  if st.last_inputs = some inputs then
    (st.cached_output, st)
  else
    (compute inputs, ⟨some inputs, compute inputs, st.call_count + 1⟩)

/-! ### PhotoIonRateCoeff (continuum_processes.py:170-207, 320-327;
continuum.py:14-23, 53-70) -/

/-- A rate-coefficient DataFrame: a row index of level keys together with the
positional table of values (row position × shell column). -/
structure PTable where
  index : List LevelKey
  values : ℕ → ℕ → ℚ

/-- `PhotoIonEstimatorsNormFactor.calculate` (continuum_processes.py:320-327):
`(time_simulation * volume * h)^-1`, a per-shell factor (`h_cgs` stands for
the CGS value of the Planck constant, an external astropy constant). -/
def PhotoIonEstimatorsNormFactor_calculate (time_simulation : ℚ)
    (volume : ℕ → ℚ) (h_cgs : ℚ) : ℕ → ℚ :=
  fun s => (time_simulation * volume s * h_cgs)⁻¹

/-- `PhotoIonRateCoeff.calculate_from_dilute_bb`
(continuum_processes.py:192-207): multiplies the dilute-blackbody mean
intensities `j_nus` row-wise by `4π * x_sect / nu / h`, integrates per level
block, and indexes the result by `photo_ion_index`. The mean intensity
`j_nus` of `JBluesDiluteBlackBody.calculate` (an external collaborator,
`tardis.plasma.properties.j_blues`, not under src/) is passed as a function of
sample row and shell, and `fourPi` and `h_cgs` stand for the external
constants `4π` and `h`. -/
def PhotoIonRateCoeff_calculate_from_dilute_bb (nu x_sect : ℕ → ℚ)
    (photo_ion_block_references : List ℕ) (photo_ion_index : List LevelKey)
    (j_nus : ℕ → ℕ → ℚ) (fourPi h_cgs : ℚ) : PTable :=
  { index := photo_ion_index
    values := fun b s =>
      integrate_array_by_blocks
        (fun r c => j_nus r c * (fourPi * x_sect r / nu r / h_cgs))
        nu photo_ion_block_references b s }

/-- `PhotoIonRateCoeff.calculate` (continuum_processes.py:180-190): on a cold
start (`gamma_estimator is None`) the analytic dilute-blackbody branch is
taken; otherwise `gamma = gamma_estimator * photo_ion_norm_factor`, the
per-shell normalization broadcast over the estimator's rows, with the
estimator's index kept. -/
def PhotoIonRateCoeff_calculate (gamma_estimator : Option PTable)
    (photo_ion_norm_factor : ℕ → ℚ) (nu x_sect : ℕ → ℚ)
    (photo_ion_block_references : List ℕ) (photo_ion_index : List LevelKey)
    (j_nus : ℕ → ℕ → ℚ) (fourPi h_cgs : ℚ) : PTable :=
  match gamma_estimator with
  | none =>
      PhotoIonRateCoeff_calculate_from_dilute_bb nu x_sect
        photo_ion_block_references photo_ion_index j_nus fourPi h_cgs
  | some est =>
      { index := est.index
        values := fun b s => est.values b s * photo_ion_norm_factor s }

/-- `calculate_rate_coefficient_from_estimator` (continuum.py:19-23): wraps the
raw estimator values into a DataFrame explicitly indexed by the sorted
photo-ion index. -/
def calculate_rate_coefficient_from_estimator (estimator : ℕ → ℕ → ℚ)
    (photo_ion_index_sorted : List LevelKey) : PTable :=
  { index := photo_ion_index_sorted, values := estimator }

/-- `PhotoIonRateCoeff.calculate` of `continuum.py` (continuum.py:65-70), the
variant registered in `continuum_interaction_properties`: when the Monte
Carlo estimator is present, the raw estimator values are wrapped into a table
indexed by the sorted photo-ion index, with no normalization factor applied;
on a cold start (`photo_ion_estimator is None`) it returns `None` — no
analytic table is computed. -/
def ContinuumPhotoIonRateCoeff_calculate
    (photo_ion_estimator : Option (ℕ → ℕ → ℚ))
    (photo_ion_index_sorted : List LevelKey) : Option PTable :=
  match photo_ion_estimator with
  | some est =>
      some (calculate_rate_coefficient_from_estimator est photo_ion_index_sorted)
  | none => none

/-! ### PhotoIonizationData (atomic.py:77-126) -/

/-- Lexicographic order on level keys: the order in which
`groupby(level=[0, 1, 2])` sorts its groups. -/
def keyLe (a b : LevelKey) : Prop :=
  a.atomic_number < b.atomic_number ∨
    (a.atomic_number = b.atomic_number ∧
      (a.ion_number < b.ion_number ∨
        (a.ion_number = b.ion_number ∧ a.level_number ≤ b.level_number)))

instance : DecidableRel keyLe := fun a b => by
  unfold keyLe; infer_instance

instance : IsTotal LevelKey keyLe := by
  constructor
  intro a b
  unfold keyLe
  omega

instance : IsTrans LevelKey keyLe := by
  constructor
  intro a b c hab hbc
  unfold keyLe at hab hbc ⊢
  omega

/-- A raw cross-section row: the level key of the row together with the `nu`
column value (the `x_sect` column plays no role in the block references). -/
abbrev PhotRow := LevelKey × ℚ

/-- The `droplevel('level_number')`-based species mask
(atomic.py:105-107): keep the rows whose `(atomic_number, ion_number)` is in
`continuum_interaction_species`. -/
def selectSpecies (rows : List PhotRow)
    (continuum_interaction_species : List IonKey) : List PhotRow :=
  rows.filter (fun r =>
    (r.1.atomic_number, r.1.ion_number) ∈ continuum_interaction_species)

/-- The group keys of `phot_nus.groupby(level=[0, 1, 2])`: the distinct level
keys of the table, sorted lexicographically (pandas sorts group keys). -/
def groupbyKeys (rows : List PhotRow) : List LevelKey :=
  List.insertionSort keyLe (rows.map Prod.fst).dedup

/-- The per-group row counts `phot_nus.groupby(level=[0, 1, 2]).count()`. -/
def groupCounts (rows : List PhotRow) : List ℕ :=
  (groupbyKeys rows).map (fun k => (rows.map Prod.fst).count k)

/-- `np.hstack([[0], counts.cumsum()])` (atomic.py:109-111): the running sums
of the group counts, starting at `0`. -/
def photo_ion_block_references (rows : List PhotRow) : List ℕ :=
  (groupCounts rows).scanl (· + ·) 0

/-- `photoionization_data.groupby(level=[0, 1, 2]).first().nu`
(atomic.py:113): the threshold frequency of each block, i.e. the `nu` value of
the first row of each group, in group (block) order. -/
def photo_ion_nu_i (rows : List PhotRow) : List ℚ :=
  (groupbyKeys rows).map (fun k =>
    ((rows.filter (fun r => r.1 = k)).head?.map Prod.snd).getD 0)

/-- The `photo_ion_idx` lookup built in `PhotoIonizationData.calculate`
(atomic.py:116-124): per level of the selected table, `source_level_idx` is
the macro-atom reference index of the level itself and
`destination_level_idx` the reference index at
`get_ground_state_multi_index` of the level. -/
def PhotoIonizationData_photo_ion_idx (macro_atom_references : LevelKey → ℕ)
    (photo_ion_index : List LevelKey) : List (LevelKey × ℕ × ℕ) :=
  photo_ion_index.map (fun k =>
    (k, macro_atom_references k,
      macro_atom_references (get_ground_state_multi_index k)))

/-! ### ZetaData (atomic.py:201-251) -/

/-- A zeta row: an `(atomic_number, ion_number)` key with the row's (scalar
stand-in for the) temperature-column values. -/
abbrev ZetaRow := IonKey × ℚ

/-- The `isin(selected_atoms)` filter (atomic.py:215): keep zeta rows whose
atomic number is selected. -/
def zetaFiltered (zeta_data : List ZetaRow) (selected_atoms : List ℕ) :
    List ZetaRow :=
  zeta_data.filter (fun e => e.1.1 ∈ selected_atoms)

/-- The completeness check `np.alltrue(keys + 1 == values)` over
`Counter(zeta_data.atomic_number.values)` (atomic.py:216-219): every atomic
number occurring in the filtered table occurs on exactly
`atomic_number + 1` rows. Atoms with no row at all contribute no counter key
and are not checked. -/
def zetaCheck (filtered : List ZetaRow) : Bool :=
  ((filtered.map (fun e => e.1.1)).dedup).all (fun a =>
    (filtered.filter (fun e => e.1.1 = a)).length = a + 1)

/-- The `updated_index` of the fallback branch (atomic.py:226-232): for each
selected atom, the ions `1` through `atomic_number + 1`. -/
def zetaUpdatedIndex (selected_atoms : List ℕ) : List IonKey :=
  selected_atoms.flatMap (fun atom =>
    (List.range (atom + 1)).map (fun i => (atom, i + 1)))

/-- The `missing_ions` list the fallback logs (atomic.py:226-233): the pairs of
the updated index absent from the filtered table. -/
def zetaMissingIons (filtered : List ZetaRow) (selected_atoms : List ℕ) :
    List IonKey :=
  (zetaUpdatedIndex selected_atoms).filter (fun k => filtered.lookup k = none)

/-- `ZetaData._filter_atomic_property` (atomic.py:212-248): when the
completeness check passes the filtered table is returned as is (and nothing is
logged); otherwise the fallback rebuilds the table over the updated index,
copying every present row's values and filling the rest with `1.0`
(`fillna(1.0)`), and logs the missing pairs. The second component is the
logged missing-ion list. -/
def ZetaData_filter_atomic_property (zeta_data : List ZetaRow)
    (selected_atoms : List ℕ) : List ZetaRow × List IonKey :=
  let filtered := zetaFiltered zeta_data selected_atoms
  if zetaCheck filtered then
    (filtered, [])
  else
    ((zetaUpdatedIndex selected_atoms).map (fun k =>
        (k, (filtered.lookup k).getD 1)),
      zetaMissingIons filtered selected_atoms)

/-! ## Theorems -/

/-- C2: for every 2-D array `f`, coordinate array `x` and block-reference
array, entry `(b, c)` of `integrate_array_by_blocks` equals the
trapezoidal-quadrature definite integral of column `c` of `f` against `x`
restricted to rows `[block_references[b], block_references[b+1])`; a block of
length 0 or 1 integrates to 0, and an identically zero `f` gives 0
everywhere. -/
theorem claim_C2_integrate_array_by_blocks (f : ℕ → ℕ → ℚ) (x : ℕ → ℚ)
    (br : List ℕ) (j i : ℕ) :
    integrate_array_by_blocks f x br j i =
      trapezoidIntegral (fun r => f r i) x (br.getD j 0) (br.getD (j + 1) 0)
    ∧ (br.getD (j + 1) 0 - br.getD j 0 ≤ 1 →
        integrate_array_by_blocks f x br j i = 0)
    ∧ ((∀ r c, f r c = 0) → integrate_array_by_blocks f x br j i = 0) := by
  refine ⟨integrate_array_by_blocks_eq f x br j i, ?_, ?_⟩
  · intro hshort
    rw [integrate_array_by_blocks_eq]
    unfold trapezoidIntegral
    have h0 : br.getD (j + 1) 0 - br.getD j 0 - 1 = 0 := by omega
    rw [h0]
    simp
  · intro hzero
    rw [integrate_array_by_blocks_eq]
    unfold trapezoidIntegral
    refine Finset.sum_eq_zero (fun k _ => ?_)
    simp [hzero]

/-- Witness for C2 at concrete inputs: a length-1 block integrates to 0, and a
zero integrand integrates to 0. -/
theorem claim_C2_witness :
    integrate_array_by_blocks (fun r c => (r + c : ℚ)) (fun r => (r : ℚ))
      [0, 1] 0 0 = 0
    ∧ integrate_array_by_blocks (fun _ _ => (0 : ℚ)) (fun r => (r : ℚ))
      [0, 3] 0 0 = 0 :=
  ⟨(claim_C2_integrate_array_by_blocks (fun r c => (r + c : ℚ))
      (fun r => (r : ℚ)) [0, 1] 0 0).2.1 (by decide),
   (claim_C2_integrate_array_by_blocks (fun _ _ => (0 : ℚ))
      (fun r => (r : ℚ)) [0, 3] 0 0).2.2 (fun _ _ => rfl)⟩

/-- C3: the ground-state transform returns `(atomic_number, ion_number + 1,
0)`; the ion-key transform drops `level_number` and increments `ion_number`
exactly when `next_higher` is true; and `photo_ion_idx` maps every level of
the selected table to its own macro-atom reference index (source) and the
reference index of the ground level of the next-higher ion (destination). -/
theorem claim_C3_ground_state_and_photo_ion_idx (refs : LevelKey → ℕ)
    (idx : List LevelKey) :
    (∀ k : LevelKey, get_ground_state_multi_index k =
      ⟨k.atomic_number, k.ion_number + 1, 0⟩)
    ∧ (∀ (k : LevelKey) (nh : Bool), get_ion_multi_index k nh =
      (k.atomic_number, if nh then k.ion_number + 1 else k.ion_number))
    ∧ (∀ k ∈ idx, (k, refs k, refs ⟨k.atomic_number, k.ion_number + 1, 0⟩) ∈
        PhotoIonizationData_photo_ion_idx refs idx)
    ∧ (∀ k s d, (k, s, d) ∈ PhotoIonizationData_photo_ion_idx refs idx →
        s = refs k ∧ d = refs (get_ground_state_multi_index k)) := by
  refine ⟨fun k => rfl, fun k nh => rfl, ?_, ?_⟩
  · intro k hk
    exact List.mem_map_of_mem _ hk
  · intro k s d hmem
    obtain ⟨k', _, heq⟩ := List.mem_map.mp hmem
    cases heq
    exact ⟨rfl, rfl⟩

/-- Witness for C3: at a concrete reference table, the level `(2, 1, 0)` is
mapped to its own reference index 4 as source and to the reference index 6 of
the ground level `(2, 2, 0)` of the next-higher ion as destination. -/
theorem claim_C3_witness :
    ((⟨2, 1, 0⟩ : LevelKey), 4, 6) ∈ PhotoIonizationData_photo_ion_idx
      (fun k => k.atomic_number + 2 * k.ion_number + k.level_number)
      [⟨2, 1, 0⟩]
    ∧ ((4 : ℕ) = (⟨2, 1, 0⟩ : LevelKey).atomic_number +
        2 * (⟨2, 1, 0⟩ : LevelKey).ion_number +
        (⟨2, 1, 0⟩ : LevelKey).level_number
      ∧ (6 : ℕ) = (get_ground_state_multi_index ⟨2, 1, 0⟩).atomic_number +
        2 * (get_ground_state_multi_index ⟨2, 1, 0⟩).ion_number +
        (get_ground_state_multi_index ⟨2, 1, 0⟩).level_number) :=
  ⟨(claim_C3_ground_state_and_photo_ion_idx
      (fun k => k.atomic_number + 2 * k.ion_number + k.level_number)
      [⟨2, 1, 0⟩]).2.2.1 ⟨2, 1, 0⟩ (by decide),
   (claim_C3_ground_state_and_photo_ion_idx
      (fun k => k.atomic_number + 2 * k.ion_number + k.level_number)
      [⟨2, 1, 0⟩]).2.2.2 ⟨2, 1, 0⟩ 4 6 (by decide)⟩

/-- C7: `combine_first` keeps every tabulated value unchanged, uses the
analytic value exactly where no tabulated value exists (never averaging), is
idempotent, and merging with the empty analytic table is the identity. -/
theorem claim_C7_yg_merge (yg approx : YgTable) :
    (∀ k t v, yg k t = some v → combine_first yg approx k t = some v)
    ∧ (∀ k t, yg k t = none → combine_first yg approx k t = approx k t)
    ∧ combine_first yg yg = yg
    ∧ combine_first yg emptyYgTable = yg := by
  refine ⟨?_, ?_, ?_, ?_⟩
  · intro k t v h
    simp [combine_first, h, Option.orElse]
  · intro k t h
    simp [combine_first, h, Option.orElse]
  · funext k t
    cases h : yg k t <;> simp [combine_first, h, Option.orElse]
  · funext k t
    cases h : yg k t <;> simp [combine_first, emptyYgTable, h, Option.orElse]

/-- Witness for C7: the merge at a key with a tabulated value returns that
value; at a key without one it returns the analytic value. -/
theorem claim_C7_witness :
    combine_first (fun k _ => if k.1 = 1 then some 2 else none)
      (fun _ _ => some 7) (1, 0, 0, 1) 3 = some 2
    ∧ combine_first (fun k _ => if k.1 = 1 then some 2 else none)
      (fun _ _ => some 7) (2, 0, 0, 1) 3 = some 7 :=
  ⟨(claim_C7_yg_merge (fun k _ => if k.1 = 1 then some 2 else none)
      (fun _ _ => some 7)).1 (1, 0, 0, 1) 3 2 rfl,
   (claim_C7_yg_merge (fun k _ => if k.1 = 1 then some 2 else none)
      (fun _ _ => some 7)).2.1 (2, 0, 0, 1) 3 rfl⟩

/-- C8 counterexample: neither transform is idempotent, and the level-to-ion
map is not injective — at `(1, 0, 0)` re-applying `ground_state_key` changes
the key again, re-applying `ion_key` (with `next_higher = true`) changes the
ion key again, and the distinct levels `(1, 0, 0)` and `(1, 0, 1)` share one
parent ion key. -/
theorem claim_C8_counterexample :
    get_ground_state_multi_index (get_ground_state_multi_index ⟨1, 0, 0⟩) ≠
      get_ground_state_multi_index ⟨1, 0, 0⟩
    ∧ get_ion_multi_index_on_ion (get_ion_multi_index ⟨1, 0, 0⟩ true) true ≠
      get_ion_multi_index ⟨1, 0, 0⟩ true
    ∧ get_ion_multi_index ⟨1, 0, 0⟩ true = get_ion_multi_index ⟨1, 0, 1⟩ true := by
  refine ⟨?_, ?_, rfl⟩ <;> decide

/-- C8 amended: `ion_key` with `next_higher = false` is idempotent; with
`next_higher = true` (and likewise `ground_state_key`) each re-application
increments `ion_number` once more; the transforms are constant on the levels
of an ion (hence not injective) and the level-to-ion map with
`next_higher = false` is surjective onto ion keys. -/
theorem claim_C8_amended :
    (∀ k : IonKey, get_ion_multi_index_on_ion (get_ion_multi_index_on_ion k false) false =
      get_ion_multi_index_on_ion k false)
    ∧ (∀ k : LevelKey, get_ion_multi_index_on_ion (get_ion_multi_index k true) true =
      (k.atomic_number, k.ion_number + 2))
    ∧ (∀ k : LevelKey, get_ground_state_multi_index (get_ground_state_multi_index k) =
      ⟨k.atomic_number, k.ion_number + 2, 0⟩)
    ∧ (∀ Z I L L' : ℕ, ∀ nh : Bool,
        get_ion_multi_index ⟨Z, I, L⟩ nh = get_ion_multi_index ⟨Z, I, L'⟩ nh
        ∧ get_ground_state_multi_index ⟨Z, I, L⟩ =
          get_ground_state_multi_index ⟨Z, I, L'⟩)
    ∧ (∀ p : IonKey, ∃ k : LevelKey, get_ion_multi_index k false = p) := by
  refine ⟨fun k => rfl, fun k => rfl, fun k => rfl, fun Z I L L' nh => ⟨rfl, rfl⟩, ?_⟩
  intro p
  exact ⟨⟨p.1, p.2, 0⟩, rfl⟩

/-- C9 (spec-modelled): evaluating a node whose declared inputs are unchanged
since the last evaluation returns the cached value without touching the
state — in particular the compute call count is unchanged, so the compute
function was not re-invoked; when any input changed, the node is recomputed,
the call count increments and the new inputs and output are cached. -/
theorem claim_C9_node_staleness (compute : List ℚ → ℚ) (inputs : List ℚ)
    (st : NodeState) :
    (st.last_inputs = some inputs →
      evaluateNode compute inputs st = (st.cached_output, st))
    ∧ (st.last_inputs ≠ some inputs →
      evaluateNode compute inputs st =
        (compute inputs, ⟨some inputs, compute inputs, st.call_count + 1⟩)) := by
  constructor
  · intro h
    simp [evaluateNode, h]
  · intro h
    simp [evaluateNode, h]

/-- Witness for C9: a concrete cache hit leaves the state (and its call count)
unchanged; a concrete changed input recomputes and increments the count. -/
theorem claim_C9_witness :
    evaluateNode (fun l => l.sum) [1] ⟨some [1], 5, 3⟩ = (5, ⟨some [1], 5, 3⟩)
    ∧ evaluateNode (fun l => l.sum) [1] ⟨some [2], 5, 3⟩ = (1, ⟨some [1], 1, 4⟩) :=
  ⟨(claim_C9_node_staleness (fun l => l.sum) [1] ⟨some [1], 5, 3⟩).1 rfl,
   by
    have h := (claim_C9_node_staleness (fun l => l.sum) [1] ⟨some [2], 5, 3⟩).2
      (by decide)
    rw [h]
    norm_num⟩

lemma neg_count_zero_iff (index : List LevelKey) (shells : ℕ)
    (gc : LevelKey → ℕ → ℚ) :
    (index.map (fun k =>
      ((List.range shells).filter (fun s => gc k s < 0)).length)).sum = 0 ↔
      ∀ k ∈ index, ∀ s < shells, 0 ≤ gc k s := by
  rw [List.sum_eq_zero_iff]
  constructor
  · intro h k hk s hs
    have hlen := h _ (List.mem_map_of_mem _ hk)
    rw [List.length_eq_zero] at hlen
    by_contra hneg
    have hmem : s ∈ (List.range shells).filter (fun s => gc k s < 0) := by
      rw [List.mem_filter]
      exact ⟨List.mem_range.mpr hs, by simp [not_le.mp hneg]⟩
    rw [hlen] at hmem
    exact absurd hmem (List.not_mem_nil s)
  · intro h x hx
    obtain ⟨k, hk, rfl⟩ := List.mem_map.mp hx
    rw [List.length_eq_zero, List.filter_eq_nil_iff]
    intro s hs
    simp only [decide_eq_true_eq, not_lt]
    exact h k hk s (List.mem_range.mp hs)

/-- C1: whenever `CorrPhotoIonRateCoeff.calculate` returns, the returned table
is exactly `gamma - alpha_stim * n_k * electron_densities / n_i` (with `n_k`
the ion number density at the next-higher ion key and `n_i` the level number
density) and every entry of the table is non-negative; and it raises a
`PlasmaException` if and only if some entry of that difference is negative —
negative entries are never clamped and no partial result is returned on
error. -/
theorem claim_C1_corr_photo_ion_rate_coeff (index : List LevelKey)
    (shells : ℕ) (gamma alpha_stim : LevelKey → ℕ → ℚ) (n_e : ℕ → ℚ)
    (nion : IonKey → ℕ → ℚ) (nlev : LevelKey → ℕ → ℚ) :
    (∀ t, CorrPhotoIonRateCoeff_calculate index shells gamma alpha_stim n_e
        nion nlev = Except.ok t →
      (∀ k s, t k s = gamma k s -
        alpha_stim k s * nion (get_ion_multi_index k) s * n_e s / nlev k s)
      ∧ ∀ k ∈ index, ∀ s < shells, 0 ≤ t k s)
    ∧ ((∃ e, CorrPhotoIonRateCoeff_calculate index shells gamma alpha_stim n_e
        nion nlev = Except.error e) ↔
      ∃ k ∈ index, ∃ s < shells,
        corrPhotoIonGammaCorr gamma alpha_stim n_e nion nlev k s < 0) := by
  unfold CorrPhotoIonRateCoeff_calculate
  by_cases hneg : (index.map (fun k =>
      ((List.range shells).filter (fun s =>
        corrPhotoIonGammaCorr gamma alpha_stim n_e nion nlev k s < 0)).length)).sum = 0
  · rw [if_neg (by simpa using hneg)]
    constructor
    · intro t ht
      obtain rfl : corrPhotoIonGammaCorr gamma alpha_stim n_e nion nlev = t :=
        Except.ok.inj ht
      exact ⟨fun k s => rfl, (neg_count_zero_iff index shells _).mp hneg⟩
    · constructor
      · rintro ⟨e, he⟩
        exact absurd he (by simp)
      · rintro ⟨k, hk, s, hs, hlt⟩
        exact absurd hlt
          (not_lt.mpr ((neg_count_zero_iff index shells _).mp hneg k hk s hs))
  · rw [if_pos (by simpa using hneg)]
    constructor
    · intro t ht
      exact absurd ht (by simp)
    · constructor
      · intro _
        by_contra hall
        push_neg at hall
        exact hneg ((neg_count_zero_iff index shells _).mpr
          (fun k hk s hs => hall k hk s hs))
      · intro _
        exact ⟨⟨"Negative values in CorrPhotoIonRateCoeff."⟩, rfl⟩

/-- Witness for C1: at an all-zero input the computation succeeds with a
non-negative table, and at an input with `gamma = -1` it raises the
exception. -/
theorem claim_C1_witness :
    0 ≤ corrPhotoIonGammaCorr (fun _ _ => 0) (fun _ _ => 0) (fun _ => 0)
      (fun _ _ => 0) (fun _ _ => 0) ⟨1, 0, 0⟩ 0
    ∧ ∃ e, CorrPhotoIonRateCoeff_calculate [⟨1, 0, 0⟩] 1 (fun _ _ => -1)
      (fun _ _ => 0) (fun _ => 0) (fun _ _ => 0) (fun _ _ => 0) =
        Except.error e := by
  constructor
  · have hcalc : CorrPhotoIonRateCoeff_calculate [⟨1, 0, 0⟩] 1 (fun _ _ => 0)
        (fun _ _ => 0) (fun _ => 0) (fun _ _ => 0) (fun _ _ => 0) =
        Except.ok (corrPhotoIonGammaCorr (fun _ _ => 0) (fun _ _ => 0)
          (fun _ => 0) (fun _ _ => 0) (fun _ _ => 0)) := by
      simp only [CorrPhotoIonRateCoeff_calculate]
      rw [if_neg (by norm_num [corrPhotoIonGammaCorr, List.range_succ])]
    have h := (claim_C1_corr_photo_ion_rate_coeff [⟨1, 0, 0⟩] 1
      (fun _ _ => 0) (fun _ _ => 0) (fun _ => 0) (fun _ _ => 0)
      (fun _ _ => 0)).1
      (corrPhotoIonGammaCorr (fun _ _ => 0) (fun _ _ => 0) (fun _ => 0)
        (fun _ _ => 0) (fun _ _ => 0)) hcalc
    exact h.2 ⟨1, 0, 0⟩ (by simp) 0 (by omega)
  · exact (claim_C1_corr_photo_ion_rate_coeff [⟨1, 0, 0⟩] 1 (fun _ _ => -1)
      (fun _ _ => 0) (fun _ => 0) (fun _ _ => 0) (fun _ _ => 0)).2.mpr
      ⟨⟨1, 0, 0⟩, by simp, 0, by omega, by norm_num [corrPhotoIonGammaCorr]⟩

/-- C4 counterexample: the claim is false for the
`PhotoIonRateCoeff.calculate` of `continuum.py` (the variant registered in
`continuum_interaction_properties`): on a cold start it returns `None`
instead of an analytic dilute-blackbody table (so the branches are not
index-agnostic), and on the estimator branch it wraps the raw estimator value
3 unnormalized, whereas the claim demands `3 * 1/(time_simulation * volume *
h)` — which differs (3 ≠ 3/2 at `time_simulation = 1`, `volume = 2`,
`h = 1`). -/
theorem claim_C4_counterexample :
    ContinuumPhotoIonRateCoeff_calculate none [⟨1, 0, 0⟩] = none
    ∧ (ContinuumPhotoIonRateCoeff_calculate (some (fun _ _ => 3))
        [⟨1, 0, 0⟩]).map (fun t => t.values 0 0) = some 3
    ∧ (3 : ℚ) ≠
        3 * PhotoIonEstimatorsNormFactor_calculate 1 (fun _ => 2) 1 0 := by
  refine ⟨rfl, rfl, ?_⟩
  norm_num [PhotoIonEstimatorsNormFactor_calculate]

/-- C4 amended: in the `continuum_processes.py` variant, a cold start
(`gamma_estimator` is `None`) takes the analytic dilute-blackbody branch,
indexed by `photo_ion_index`, and otherwise the estimator is rescaled by
`1 / (time_simulation * volume * h)` with the estimator's index kept — so
when the estimator carries the photo-ion index, both branches produce a table
with the same index. In the `continuum.py` variant, a cold start returns
`None` (no table), and the estimator branch wraps the raw estimator values
unnormalized into a table indexed by the sorted photo-ion index. -/
theorem claim_C4_photo_ion_rate_coeff_branches (nf : ℕ → ℚ)
    (nu x_sect : ℕ → ℚ) (br : List ℕ) (pidx : List LevelKey)
    (j_nus : ℕ → ℕ → ℚ) (fourPi h_cgs : ℚ) (time_simulation : ℚ)
    (volume : ℕ → ℚ) :
    (PhotoIonRateCoeff_calculate none nf nu x_sect br pidx j_nus fourPi h_cgs =
        PhotoIonRateCoeff_calculate_from_dilute_bb nu x_sect br pidx j_nus
          fourPi h_cgs
      ∧ (PhotoIonRateCoeff_calculate none nf nu x_sect br pidx j_nus fourPi
          h_cgs).index = pidx)
    ∧ (∀ est : PTable,
        (PhotoIonRateCoeff_calculate (some est)
            (PhotoIonEstimatorsNormFactor_calculate time_simulation volume h_cgs)
            nu x_sect br pidx j_nus fourPi h_cgs).values =
          (fun b s => est.values b s * (time_simulation * volume s * h_cgs)⁻¹)
        ∧ (PhotoIonRateCoeff_calculate (some est) nf nu x_sect br pidx j_nus
            fourPi h_cgs).index = est.index)
    ∧ (∀ est : PTable, est.index = pidx →
        (PhotoIonRateCoeff_calculate (some est) nf nu x_sect br pidx j_nus
            fourPi h_cgs).index =
          (PhotoIonRateCoeff_calculate none nf nu x_sect br pidx j_nus fourPi
            h_cgs).index)
    ∧ (∀ estimator : ℕ → ℕ → ℚ,
        (calculate_rate_coefficient_from_estimator estimator pidx).index =
          pidx)
    ∧ ContinuumPhotoIonRateCoeff_calculate none pidx = none
    ∧ (∀ estimator : ℕ → ℕ → ℚ,
        ContinuumPhotoIonRateCoeff_calculate (some estimator) pidx =
          some (calculate_rate_coefficient_from_estimator estimator pidx)) := by
  refine ⟨⟨rfl, rfl⟩, fun est => ⟨rfl, rfl⟩, ?_, fun estimator => rfl, rfl,
    fun estimator => rfl⟩
  intro est h
  exact h

/-- Witness for C4: an estimator table carrying the photo-ion index yields the
same index as the cold-start branch. -/
theorem claim_C4_witness :
    (PhotoIonRateCoeff_calculate (some ⟨[⟨1, 0, 0⟩], fun _ _ => 1⟩)
        (fun _ => 1) (fun _ => 1) (fun _ => 1) [0, 1] [⟨1, 0, 0⟩]
        (fun _ _ => 1) 1 1).index =
      (PhotoIonRateCoeff_calculate none (fun _ => 1) (fun _ => 1) (fun _ => 1)
        [0, 1] [⟨1, 0, 0⟩] (fun _ _ => 1) 1 1).index :=
  (claim_C4_photo_ion_rate_coeff_branches (fun _ => 1) (fun _ => 1)
    (fun _ => 1) [0, 1] [⟨1, 0, 0⟩] (fun _ _ => 1) 1 1 1 (fun _ => 1)).2.2.1
    ⟨[⟨1, 0, 0⟩], fun _ _ => 1⟩ rfl

instance : Inhabited LevelKey := ⟨⟨0, 0, 0⟩⟩

instance : Inhabited TransKey := ⟨⟨0, 0, 0⟩⟩

/-- C10: `set_index` only replaces the index — the values, the row count and
the row order are untouched; with `reverse = true` the level named
`source_level_idx` holds the lookup's `destination_level_idx` entries and
vice versa, while with `reverse = false` the roles match the lookup. -/
theorem claim_C10_set_index (p : List (LevelKey × List ℚ))
    (photo_ion_idx : LevelKey → ℕ × ℕ) (tt : ℤ) (rev : Bool) :
    ((IndexSetterMixin_set_index p photo_ion_idx tt rev).map Prod.snd =
      p.map Prod.snd)
    ∧ (IndexSetterMixin_set_index p photo_ion_idx tt rev).length = p.length
    ∧ (∀ i, i < p.length →
        (IndexSetterMixin_set_index p photo_ion_idx tt true).getD i default =
          (⟨(photo_ion_idx (p.getD i default).1).2,
            (photo_ion_idx (p.getD i default).1).1, tt⟩,
            (p.getD i default).2))
    ∧ (∀ i, i < p.length →
        (IndexSetterMixin_set_index p photo_ion_idx tt false).getD i default =
          (⟨(photo_ion_idx (p.getD i default).1).1,
            (photo_ion_idx (p.getD i default).1).2, tt⟩,
            (p.getD i default).2)) := by
  refine ⟨?_, by simp [IndexSetterMixin_set_index], ?_, ?_⟩
  · rw [IndexSetterMixin_set_index, List.map_map]
    rfl
  · intro i hi
    rw [IndexSetterMixin_set_index]
    rw [List.getD_eq_getElem?_getD, List.getElem?_map,
      List.getElem?_eq_getElem hi, List.getD_eq_getElem?_getD,
      List.getElem?_eq_getElem hi]
    rfl
  · intro i hi
    rw [IndexSetterMixin_set_index]
    rw [List.getD_eq_getElem?_getD, List.getElem?_map,
      List.getElem?_eq_getElem hi, List.getD_eq_getElem?_getD,
      List.getElem?_eq_getElem hi]
    rfl

/-- Witness for C10: at a concrete one-row table, `reverse = true` swaps the
source and destination roles relative to the lookup and keeps the values. -/
theorem claim_C10_witness :
    (IndexSetterMixin_set_index [(⟨1, 0, 0⟩, [3, 4])]
        (fun _ => (5, 9)) 0 true).getD 0 default = (⟨9, 5, 0⟩, [3, 4])
    ∧ (IndexSetterMixin_set_index [(⟨1, 0, 0⟩, [3, 4])]
        (fun _ => (5, 9)) 0 false).getD 0 default = (⟨5, 9, 0⟩, [3, 4]) :=
  ⟨(claim_C10_set_index [(⟨1, 0, 0⟩, [3, 4])] (fun _ => (5, 9)) 0 true).2.2.1
      0 (by decide),
   (claim_C10_set_index [(⟨1, 0, 0⟩, [3, 4])] (fun _ => (5, 9)) 0 false).2.2.2
      0 (by decide)⟩

lemma scanl_add_getD : ∀ (l : List ℕ) (a i : ℕ), i ≤ l.length →
    (l.scanl (· + ·) a).getD i 0 = a + (l.take i).sum := by
  intro l
  induction l with
  | nil =>
    intro a i h
    have h0 : i = 0 := by simpa using h
    subst h0
    simp [List.scanl_nil]
  | cons c cs ih =>
    intro a i h
    rw [List.scanl_cons]
    cases i with
    | zero => simp
    | succ i =>
      have h' : i ≤ cs.length := by simpa using h
      simp only [List.cons_append, List.nil_append, List.getD_cons_succ]
      rw [ih (a + c) i h', List.take_succ_cons, List.sum_cons]
      omega

lemma mem_groupbyKeys {rows : List PhotRow} {k : LevelKey} :
    k ∈ groupbyKeys rows ↔ k ∈ rows.map Prod.fst := by
  unfold groupbyKeys
  rw [(List.perm_insertionSort keyLe _).mem_iff, List.mem_dedup]

lemma groupCounts_sum (rows : List PhotRow) :
    (groupCounts rows).sum = rows.length := by
  unfold groupCounts groupbyKeys
  rw [List.Perm.sum_eq (List.Perm.map _ (List.perm_insertionSort keyLe _))]
  rw [List.sum_map_count_dedup_eq_length, List.length_map]

lemma groupCounts_getD_pos (rows : List PhotRow) (i : ℕ)
    (hi : i < (groupCounts rows).length) : 0 < (groupCounts rows).getD i 0 := by
  rw [List.getD_eq_getElem _ _ hi]
  have hmem : (groupCounts rows)[i] ∈ groupCounts rows := List.getElem_mem hi
  obtain ⟨k, hk, heq⟩ := List.mem_map.mp hmem
  rw [← heq]
  exact List.count_pos_iff.mpr (mem_groupbyKeys.mp hk)

/-- C5 amended: for every selected-species cross-section table, the block
references start at 0, are strictly increasing with consecutive differences
equal to each level's sample count (summing to the total number of samples) —
but the per-level blocks are ordered by the ascending lexicographic
`(atomic_number, ion_number, level_number)` group order of `groupby`, not by
threshold frequency. -/
theorem claim_C5_block_references (rows : List PhotRow) (species : List IonKey) :
    (photo_ion_block_references (selectSpecies rows species)).getD 0 0 = 0
    ∧ (∀ i, i < (groupCounts (selectSpecies rows species)).length →
        (photo_ion_block_references (selectSpecies rows species)).getD (i + 1) 0 =
          (photo_ion_block_references (selectSpecies rows species)).getD i 0 +
            (groupCounts (selectSpecies rows species)).getD i 0)
    ∧ (∀ i, i < (groupCounts (selectSpecies rows species)).length →
        (photo_ion_block_references (selectSpecies rows species)).getD i 0 <
          (photo_ion_block_references (selectSpecies rows species)).getD (i + 1) 0)
    ∧ (photo_ion_block_references (selectSpecies rows species)).getD
        (groupCounts (selectSpecies rows species)).length 0 =
        (selectSpecies rows species).length
    ∧ List.Sorted keyLe (groupbyKeys (selectSpecies rows species)) := by
  set sel := selectSpecies rows species with hsel
  have hdiff : ∀ i, i < (groupCounts sel).length →
      (photo_ion_block_references sel).getD (i + 1) 0 =
        (photo_ion_block_references sel).getD i 0 + (groupCounts sel).getD i 0 := by
    intro i hi
    unfold photo_ion_block_references
    rw [scanl_add_getD _ 0 (i + 1) (by omega), scanl_add_getD _ 0 i (by omega)]
    rw [List.sum_take_succ _ _ hi, List.getD_eq_getElem _ _ hi]
    omega
  refine ⟨?_, hdiff, ?_, ?_, ?_⟩
  · unfold photo_ion_block_references
    rw [scanl_add_getD _ 0 0 (by omega)]
    simp
  · intro i hi
    rw [hdiff i hi]
    have := groupCounts_getD_pos sel i hi
    omega
  · unfold photo_ion_block_references
    rw [scanl_add_getD _ 0 _ le_rfl, List.take_length, groupCounts_sum]
    omega
  · exact List.sorted_insertionSort keyLe _

/-- Witness for C5: at a concrete two-level table the consecutive difference
of the block references equals the first level's sample count, and the
references strictly increase there. -/
theorem claim_C5_witness :
    (photo_ion_block_references (selectSpecies
        [(⟨1, 0, 0⟩, 1), (⟨1, 0, 0⟩, 2), (⟨1, 0, 1⟩, 3)] [(1, 0)])).getD 1 0 =
      (photo_ion_block_references (selectSpecies
        [(⟨1, 0, 0⟩, 1), (⟨1, 0, 0⟩, 2), (⟨1, 0, 1⟩, 3)] [(1, 0)])).getD 0 0 +
      (groupCounts (selectSpecies
        [(⟨1, 0, 0⟩, 1), (⟨1, 0, 0⟩, 2), (⟨1, 0, 1⟩, 3)] [(1, 0)])).getD 0 0
    ∧ (photo_ion_block_references (selectSpecies
        [(⟨1, 0, 0⟩, 1), (⟨1, 0, 0⟩, 2), (⟨1, 0, 1⟩, 3)] [(1, 0)])).getD 0 0 <
      (photo_ion_block_references (selectSpecies
        [(⟨1, 0, 0⟩, 1), (⟨1, 0, 0⟩, 2), (⟨1, 0, 1⟩, 3)] [(1, 0)])).getD 1 0 :=
  ⟨(claim_C5_block_references
      [(⟨1, 0, 0⟩, 1), (⟨1, 0, 0⟩, 2), (⟨1, 0, 1⟩, 3)] [(1, 0)]).2.1 0
      (by decide),
   (claim_C5_block_references
      [(⟨1, 0, 0⟩, 1), (⟨1, 0, 0⟩, 2), (⟨1, 0, 1⟩, 3)] [(1, 0)]).2.2.1 0
      (by decide)⟩

/-- C5 counterexample: the claim that the per-level blocks are ordered by
ascending threshold frequency is false — for the selected table with level
`(1, 0, 0)` at threshold 5 and level `(1, 0, 1)` at threshold 3, `groupby`
orders the blocks by level key, so the block thresholds `[5, 3]` are not
ascending. -/
theorem claim_C5_counterexample :
    ¬ List.Sorted (· ≤ ·) (photo_ion_nu_i
      (selectSpecies [(⟨1, 0, 0⟩, 5), (⟨1, 0, 1⟩, 3)] [(1, 0)])) := by
  intro hsorted
  have hval : photo_ion_nu_i
      (selectSpecies [(⟨1, 0, 0⟩, 5), (⟨1, 0, 1⟩, 3)] [(1, 0)]) = [5, 3] := by
    rfl
  rw [hval] at hsorted
  have h53 : (5 : ℚ) ≤ 3 := List.rel_of_sorted_cons hsorted 3 (by simp)
  norm_num at h53

lemma lookup_eq_some_of_mem :
    ∀ {l : List ZetaRow}, (l.map Prod.fst).Nodup →
      ∀ {k : IonKey} {v : ℚ}, (k, v) ∈ l → l.lookup k = some v := by
  intro l
  induction l with
  | nil => simp
  | cons e rest ih =>
    intro hnd k v hm
    obtain ⟨ek, ev⟩ := e
    rw [List.map_cons, List.nodup_cons] at hnd
    rcases List.mem_cons.mp hm with heq | htail
    · cases heq
      simp [List.lookup]
    · have hk : k ≠ ek := by
        rintro rfl
        exact hnd.1 (List.mem_map.mpr ⟨_, htail, rfl⟩)
      simp only [List.lookup, beq_eq_false_iff_ne.mpr hk]
      exact ih hnd.2 htail

lemma mem_zetaUpdatedIndex {selected : List ℕ} {a i : ℕ} :
    (a, i) ∈ zetaUpdatedIndex selected ↔ a ∈ selected ∧ 1 ≤ i ∧ i ≤ a + 1 := by
  unfold zetaUpdatedIndex
  rw [List.mem_flatMap]
  constructor
  · rintro ⟨atom, hatom, hmem⟩
    rw [List.mem_map] at hmem
    obtain ⟨j, hj, heq⟩ := hmem
    rw [List.mem_range] at hj
    cases heq
    exact ⟨hatom, by omega, by omega⟩
  · rintro ⟨ha, h1, h2⟩
    refine ⟨a, ha, List.mem_map.mpr ⟨i - 1, List.mem_range.mpr (by omega), ?_⟩⟩
    have hi1 : i - 1 + 1 = i := by omega
    rw [hi1]

/-- C6 counterexample: the claim fails when a selected atom is entirely absent
from the zeta table — with zeta data complete for atom 1 only and selected
atoms `[1, 2]`, the `Counter`-based completeness check passes (atom 2
contributes no counter key), so the fallback never runs: the missing pair
`(2, 1)` is not filled with 1.0 and no missing pair is recorded. -/
theorem claim_C6_counterexample :
    ((ZetaData_filter_atomic_property [((1, 1), 2), ((1, 2), 3)] [1, 2]).1.lookup
      (2, 1) = none)
    ∧ (ZetaData_filter_atomic_property [((1, 1), 2), ((1, 2), 3)] [1, 2]).2 = []
    ∧ (2, 1) ∈ zetaUpdatedIndex [1, 2] := by
  refine ⟨?_, ?_, ?_⟩ <;> decide

/-- C6 amended: the fallback triggers exactly when the `Counter` completeness
check fails, i.e. when some atom *present* in the filtered table has a row
count different from `atomic_number + 1` (an entirely absent selected atom
passes the check and its pairs are not filled). When it triggers it rebuilds
the table over all pairs `(a, i)` with `a` selected and `1 ≤ i ≤ a + 1`,
keeping every present entry unchanged, filling exactly the missing pairs with
1.0, and recording exactly the missing pairs; when the check passes the
filtered table is returned unchanged and nothing is recorded. Nothing is ever
raised (the function is total). -/
theorem claim_C6_zeta_fallback (zeta_data : List ZetaRow)
    (selected_atoms : List ℕ)
    (hnd : ((zetaFiltered zeta_data selected_atoms).map Prod.fst).Nodup)
    (hrange : ∀ e ∈ zeta_data, 1 ≤ e.1.2 ∧ e.1.2 ≤ e.1.1 + 1) :
    (zetaCheck (zetaFiltered zeta_data selected_atoms) = true →
      ZetaData_filter_atomic_property zeta_data selected_atoms =
        (zetaFiltered zeta_data selected_atoms, []))
    ∧ (zetaCheck (zetaFiltered zeta_data selected_atoms) = false →
        (∀ e ∈ zetaFiltered zeta_data selected_atoms,
          e ∈ (ZetaData_filter_atomic_property zeta_data selected_atoms).1)
        ∧ (∀ k ∈ zetaUpdatedIndex selected_atoms,
            (zetaFiltered zeta_data selected_atoms).lookup k = none →
            (k, 1) ∈ (ZetaData_filter_atomic_property zeta_data selected_atoms).1)
        ∧ ((ZetaData_filter_atomic_property zeta_data selected_atoms).1.map
            Prod.fst = zetaUpdatedIndex selected_atoms)
        ∧ (ZetaData_filter_atomic_property zeta_data selected_atoms).2 =
          zetaMissingIons (zetaFiltered zeta_data selected_atoms)
            selected_atoms) := by
  constructor
  · intro hcheck
    unfold ZetaData_filter_atomic_property
    rw [if_pos hcheck]
  · intro hcheck
    have hbranch : ZetaData_filter_atomic_property zeta_data selected_atoms =
        ((zetaUpdatedIndex selected_atoms).map (fun k =>
          (k, ((zetaFiltered zeta_data selected_atoms).lookup k).getD 1)),
          zetaMissingIons (zetaFiltered zeta_data selected_atoms)
            selected_atoms) := by
      unfold ZetaData_filter_atomic_property
      rw [if_neg (by simp [hcheck])]
    refine ⟨?_, ?_, ?_, ?_⟩
    · intro e he
      obtain ⟨⟨a, i⟩, v⟩ := e
      have hz := List.mem_filter.mp he
      have hsel : a ∈ selected_atoms := by simpa using hz.2
      have hr := hrange _ hz.1
      have hupd : ((a, i) : IonKey) ∈ zetaUpdatedIndex selected_atoms :=
        mem_zetaUpdatedIndex.mpr ⟨hsel, hr.1, hr.2⟩
      rw [hbranch]
      have hval : ((zetaFiltered zeta_data selected_atoms).lookup
          ((a, i) : IonKey)).getD 1 = v := by
        rw [lookup_eq_some_of_mem hnd he]
        rfl
      exact List.mem_map.mpr ⟨(a, i), hupd, by simp only [hval]⟩
    · intro k hk hnone
      rw [hbranch]
      exact List.mem_map.mpr ⟨k, hk, by simp [hnone]⟩
    · rw [hbranch]
      rw [List.map_map]
      exact List.map_id _
    · rw [hbranch]

/-- Witness for C6 at a concrete input with zeta data missing for ion (2, 2):
the fallback keeps the present entry `((1, 1), 2)` unchanged and fills the
missing pair `(2, 2)` with 1.0. -/
theorem claim_C6_witness :
    (((1, 1), (2 : ℚ)) ∈
      (ZetaData_filter_atomic_property [((1, 1), 2), ((2, 1), 5)] [1, 2]).1)
    ∧ (((2, 2), (1 : ℚ)) ∈
      (ZetaData_filter_atomic_property [((1, 1), 2), ((2, 1), 5)] [1, 2]).1) :=
  ⟨((claim_C6_zeta_fallback [((1, 1), 2), ((2, 1), 5)] [1, 2] (by decide)
      (by decide)).2 (by decide)).1 ((1, 1), 2) (by decide),
   (((claim_C6_zeta_fallback [((1, 1), 2), ((2, 1), 5)] [1, 2] (by decide)
      (by decide)).2 (by decide)).2).1 (2, 2) (by decide) (by decide)⟩

end Tardis
